import Mathlib

/-
Verification development for the devbook sandboxed cell-execution engine.

The definitions below are a shallow embedding of the execution core:
  - src/services/core/execution/executor.ts        (result/request vocabulary)
  - src/services/core/execution/jsExecutor.ts      (JSExecutor, stateful and isolated variants)
  - src/services/core/execution/worker.ts          (isolated runtime host)
  - src/services/core/execution/executionService.ts (execution orchestrator)

The opaque part of the system — what the dynamically compiled user code does
when evaluated — is modelled by an oracle record (EvalRun / IsolatedRun)
describing the observable effects of one evaluation: the console calls it
made in order, whether it threw, which names are still defined in the
evaluated scope at the end, which writes it performed on the context
parameter object, and what value it returned.  Everything the TypeScript
source does around that evaluation is translated directly.
-/

namespace Devbook

/-- Output stream tag, source type "stdout" | "stderr" in executor.ts. -/
inductive OutStream where
  | stdout
  | stderr
deriving DecidableEq, Repr

/-- Combined console record of one execution, source ExecutionResult.output. -/
structure CellOutput where
  type : OutStream
  data : String
deriving DecidableEq, Repr

/-- Error record of a failed execution, source ExecutionResult.error.
The source builds name from error.name when the thrown value is an Error
and the literal "Error" otherwise, so the embedding keeps it total. -/
structure ErrorInfo where
  message : String
  stack : Option String
  name : String
deriving DecidableEq, Repr

/-- Result of one execute call, source interface ExecutionResult. -/
structure ExecutionResult where
  success : Bool
  output : Option CellOutput
  error : Option ErrorInfo
deriving DecidableEq, Repr

/-- Value thrown by evaluated code: either an Error object (with message,
stack and name) or any other value, carried as its String(...) form —
mirroring the "error instanceof Error" tests in both execute variants. -/
inductive Thrown where
  | errObj (message : String) (stack : Option String) (name : String)
  | other (stringified : String)
deriving DecidableEq, Repr

/-- Translation of the catch blocks of both execute variants:
message := error instanceof Error ? error.message : String(error),
stack   := error instanceof Error ? error.stack : undefined,
name    := error instanceof Error ? error.name : "Error". -/
def errorInfoOf : Thrown → ErrorInfo
  | .errObj m s n => { message := m, stack := s, name := n }
  | .other s => { message := s, stack := none, name := "Error" }

/-- One of the four intercepted console channels. -/
inductive Chan where
  | log
  | error
  | warn
  | info
deriving DecidableEq, Repr

/-- Identity of the function currently installed on a console channel:
either one of the ambient (original) functions or one of the interceptors
installed by setupConsoleInterception. -/
inductive ChanImpl where
  | original (c : Chan)
  | intercepted (c : Chan)
deriving DecidableEq, Repr

/-- State of the four global console channels. -/
structure ConsoleState where
  log : ChanImpl
  error : ChanImpl
  warn : ChanImpl
  info : ChanImpl
deriving DecidableEq, Repr

/-- Console state in which every channel is an interceptor. -/
def interceptedConsole : ConsoleState :=
  { log := .intercepted .log
    error := .intercepted .error
    warn := .intercepted .warn
    info := .intercepted .info }

/-- Translation of JSExecutor.setupConsoleInterception: all four global
channels are overwritten with capturing interceptors (whatever they held). -/
def setupConsoleInterception (_ : ConsoleState) : ConsoleState :=
  interceptedConsole

/-- Translation of JSExecutor.restoreConsole: all four global channels are
overwritten with the functions stored in this.originalConsole. -/
def restoreConsole (originalConsole : ConsoleState) (_ : ConsoleState) : ConsoleState :=
  originalConsole

/-- Stream a channel is captured to by the interceptors: log and info go to
stdout, warn and error go to stderr. -/
def chanStream : Chan → OutStream
  | .log => .stdout
  | .info => .stdout
  | .warn => .stderr
  | .error => .stderr

/-- Boolean stderr test used when combining output. -/
def isStderr : OutStream → Bool
  | .stderr => true
  | .stdout => false

/-- One console call made during evaluation: the channel and the line
already formatted by formatConsoleArgs. -/
abbrev ConsoleEvent := Chan × String

/-- Output buffer contents produced by the interceptors from the console
calls of one evaluation, in call order (captureOutput appends). -/
def bufferOf (events : List ConsoleEvent) : List (OutStream × String) :=
  events.map (fun e => (chanStream e.1, e.2))

/-- Translation of JSExecutor.getCombinedOutput: undefined on an empty
buffer, otherwise all lines joined with a newline, tagged stderr when any
buffered line is stderr and stdout otherwise. -/
def getCombinedOutput (buffer : List (OutStream × String)) : Option CellOutput :=
  if buffer.isEmpty then
    none
  else
    let combined := String.intercalate "\n" (buffer.map Prod.snd)
    let hasStderr := buffer.any (fun item => isStderr item.1)
    some { type := if hasStderr then .stderr else .stdout, data := combined }

/-- JavaScript value as far as the stateful variant inspects one.  For the
composite cases the embedding carries the outcome of the partial encoding
the source attempts: func carries fn.toString() or none when that throws,
arr and obj carry JSON.stringify(value) or none when that throws (circular
references, unsupported types).  num carries the String(value) form. -/
inductive JSValue where
  | undef
  | null
  | str (s : String)
  | num (printed : String)
  | boolean (b : Bool)
  | func (src : Option String)
  | arr (json : Option String)
  | obj (json : Option String)
deriving DecidableEq, Repr

/-- JSON string literal for a String value (JSON.stringify on a string);
escaping of quote and backslash, control characters elided. -/
def jsonQuote (s : String) : String :=
  "\"" ++ ((s.replace "\\" "\\\\").replace "\"" "\\\"") ++ "\""

/-- Translation of JSExecutor.serializeValue (stateful variant): renders one
re-materialization statement.  The catch arms of the source are the none
cases of func, arr and obj. -/
def serializeValue (key : String) (value : JSValue) : String :=
  match value with
  | .undef => "var " ++ key ++ " = undefined;"
  | .null => "var " ++ key ++ " = null;"
  | .str s => "var " ++ key ++ " = " ++ jsonQuote s ++ ";"
  | .num printed => "var " ++ key ++ " = " ++ printed ++ ";"
  | .boolean b => "var " ++ key ++ " = " ++ (if b then "true" else "false") ++ ";"
  | .func (some src) => "var " ++ key ++ " = " ++ src ++ ";"
  | .func none =>
      "var " ++ key ++ " = function() \x7b throw new Error(\"Function cannot be serialized\"); \x7d;"
  | .arr (some json) => "var " ++ key ++ " = " ++ json ++ ";"
  | .arr none => "var " ++ key ++ " = [];"
  | .obj (some json) => "var " ++ key ++ " = " ++ json ++ ";"
  | .obj none => "var " ++ key ++ " = \x7b\x7d;"

/-- Persisted variable context (and the executionContext copy): a JavaScript
object modelled as its key enumeration order plus its lookup function. -/
structure Ctx where
  keys : List String
  val : String → Option JSValue

/-- Property write on a context object: existing keys keep their position in
the enumeration order, a new key is appended (JavaScript object key order). -/
def Ctx.insert (m : Ctx) (k : String) (v : JSValue) : Ctx :=
  { keys := if m.keys.contains k then m.keys else m.keys ++ [k]
    val := fun j => if j = k then some v else m.val j }

/-- Empty context, as created by initialize and reset. -/
def Ctx.empty : Ctx :=
  { keys := [], val := fun _ => none }

/-- Fold of conditional property writes driven by a partial value source f:
for each name in l in order, if f yields a value, write it.  Shared shape of
the three write loops of the stateful variant. -/
def ctxFoldF (f : String → Option JSValue) (l : List String) (init : Ctx) : Ctx :=
  l.foldl
    (fun m j =>
      match f j with
      | some v => m.insert j v
      | none => m)
    init

/-- Translation of buildVariableDeclarations: one serialized declaration per
context key, joined with newlines. -/
def buildVariableDeclarations (ctx : Ctx) (keys : List String) : String :=
  String.intercalate "\n" (keys.map (fun key => serializeValue key ((ctx.val key).getD .undef)))

/-- Direct property writes the user code performed on the context parameter
object while running, applied in order. -/
def applyCtxWrites (writes : List (String × JSValue)) (ec : Ctx) : Ctx :=
  writes.foldl (fun m kv => m.insert kv.1 kv.2) ec

/-- Translation of the sync trailer the stateful variant appends to the
generated function: for each previously known context key (and only those),
if typeof key is not undefined in the evaluated scope, write the scope value
onto the context parameter object. -/
def ctxAfterGeneratedSync (contextKeys : List String) (scope : String → Option JSValue)
    (ec : Ctx) : Ctx :=
  ctxFoldF scope contextKeys ec

/-- Translation of the two context update steps after the evaluated function
returns: first, for each previously known key present in executionContext,
copy its value into this.context; then Object.assign(this.context,
executionContext) copies every property of executionContext over. -/
def syncContextBack (ctx : Ctx) (contextKeys : List String) (ec : Ctx) : Ctx :=
  let ctx1 := ctxFoldF ec.val contextKeys ctx
  ctxFoldF ec.val ec.keys ctx1

/-- Data of a thenable returned by evaluated code: the console calls made
while it settles and, when it rejects, the rejection value. -/
structure ThenableData where
  events : List ConsoleEvent
  rejection : Option Thrown

/-- Oracle describing one evaluation of the function the stateful variant
compiles from the context declarations, the user code and the sync trailer:
the console calls it made in order, whether compiling or running threw, the
typeof probe over names at the end of the user code, the writes the user
code performed on the context parameter, and the returned value (a possible
thenable; the stateful variant never inspects it). -/
structure EvalRun where
  events : List ConsoleEvent
  outcome : Option Thrown
  finalScope : String → Option JSValue
  ctxWrites : List (String × JSValue)
  ret : Option ThenableData

/-- Translation of JSExecutor.execute, stateful variant.  Arguments: the
console functions stored by the constructor, the current global console, the
persisted context, and the evaluation oracle.  Returns the ExecutionResult,
the persisted context afterwards, and the global console afterwards.  The
match on the outcome is the try/catch; the final console is produced by the
finally block on both paths. -/
def statefulExecute (originalConsole current : ConsoleState) (ctx : Ctx) (r : EvalRun) :
    ExecutionResult × Ctx × ConsoleState :=
  let consoleDuring := setupConsoleInterception current
  let buffer := bufferOf r.events
  let contextKeys := ctx.keys
  let _varDeclarations := buildVariableDeclarations ctx contextKeys
  let finalConsole := restoreConsole originalConsole consoleDuring
  match r.outcome with
  | some e =>
      ({ success := false
         output := getCombinedOutput buffer
         error := some (errorInfoOf e) },
       ctx, finalConsole)
  | none =>
      let ec := ctxAfterGeneratedSync contextKeys r.finalScope (applyCtxWrites r.ctxWrites ctx)
      let ctxNew := syncContextBack ctx contextKeys ec
      ({ success := true
         output := getCombinedOutput buffer
         error := none },
       ctxNew, finalConsole)

/-- Oracle describing one evaluation in the isolated variant: console calls
of the synchronous run, whether it threw, the returned thenable if any, and
the console calls flushed during the awaited setTimeout(0) macrotask turn. -/
structure IsolatedRun where
  syncEvents : List ConsoleEvent
  syncOutcome : Option Thrown
  ret : Option ThenableData
  turnEvents : List ConsoleEvent

/-- Translation of JSExecutor.execute, isolated variant.  When the
synchronous run throws, the result is built at once; when it returns a
thenable, the thenable is awaited first — its console calls land in the
buffer, and its rejection is caught by the same catch — and the awaited
setTimeout(0) turn runs only when nothing threw.  The finally block
restores the console on every path. -/
def isolatedExecute (originalConsole current : ConsoleState) (r : IsolatedRun) :
    ExecutionResult × ConsoleState :=
  let consoleDuring := setupConsoleInterception current
  let finalConsole := restoreConsole originalConsole consoleDuring
  match r.syncOutcome with
  | some e =>
      ({ success := false
         output := getCombinedOutput (bufferOf r.syncEvents)
         error := some (errorInfoOf e) },
       finalConsole)
  | none =>
      match r.ret with
      | some t =>
          match t.rejection with
          | some e =>
              ({ success := false
                 output := getCombinedOutput (bufferOf (r.syncEvents ++ t.events))
                 error := some (errorInfoOf e) },
               finalConsole)
          | none =>
              ({ success := true
                 output := getCombinedOutput (bufferOf (r.syncEvents ++ t.events ++ r.turnEvents))
                 error := none },
               finalConsole)
      | none =>
          ({ success := true
             output := getCombinedOutput (bufferOf (r.syncEvents ++ r.turnEvents))
             error := none },
           finalConsole)

/-- State of the worker-side host (worker.ts module state): whether an
executor instance exists, and the isInitialized flag.  The executor internal
state is irrelevant to the host dispatch, so the instance is a unit. -/
structure WorkerState where
  executor : Option Unit
  initFlag : Bool
deriving DecidableEq, Repr

/-- Response messages sent from the worker to the main thread, source type
WorkerResponse in worker.ts. -/
inductive WorkerResponse where
  | initSuccess
  | initError (error : String)
  | executeSuccess (cellId : String) (result : ExecutionResult)
  | executeError (cellId : String) (error : String)
  | resetSuccess
  | destroySuccess
deriving DecidableEq, Repr

/-- Message thrown (then caught and echoed) by handleExecute when no
initialized executor exists. -/
def notInitMessage : String := "Executor not initialized. Call INIT first."

/-- Translation of worker.ts handleExecute: with no executor or with the
init flag down, the thrown not-initialized error is caught by the enclosing
catch and echoed as an EXECUTE_ERROR response carrying the same cellId;
otherwise the executor result (execute itself never throws) is echoed as
EXECUTE_SUCCESS.  Exactly one response is produced either way. -/
def handleExecute (w : WorkerState) (cellId : String) (execResult : ExecutionResult) :
    WorkerResponse :=
  if w.executor.isNone || !w.initFlag then
    .executeError cellId notInitMessage
  else
    .executeSuccess cellId execResult

/-- Caller-side state of the ExecutionService (executionService.ts fields).
The worker field holds the generation number of the current Worker object
(none models null); nextGen numbers the Worker objects ever constructed, so
a larger generation means a newer Worker.  pending maps cellId to the token
identifying the caller promise whose resolvers are stored in the map;
nextToken numbers the promises handed out.  initFlag is the source field
isInitialized, initMemo models whether the initPromise field is non-null.
The requestIdCounter of the source is omitted: the requestId it feeds is
never used to key or route anything. -/
structure OrchState where
  worker : Option Nat
  nextGen : Nat
  pending : List (String × Nat)
  nextToken : Nat
  initFlag : Bool
  initMemo : Bool
deriving DecidableEq, Repr

/-- Observable settlement of a caller promise, identified by its token. -/
inductive CallerEvent where
  | resolved (token : Nat) (result : ExecutionResult)
  | rejected (token : Nat) (message : String)
deriving DecidableEq, Repr

/-- Token carried by a settlement event. -/
def eventToken : CallerEvent → Nat
  | .resolved t _ => t
  | .rejected t _ => t

/-- Map.get on the pending map: value of the entry with the given key. -/
def pendingLookup : List (String × Nat) → String → Option Nat
  | [], _ => none
  | p :: rest, k => if p.1 = k then some p.2 else pendingLookup rest k

/-- Map.set on the pending map: replace the entry with the given key in
place, or append a new entry (JavaScript Map keeps insertion order and holds
at most one entry per key). -/
def pendingSet : List (String × Nat) → String → Nat → List (String × Nat)
  | [], k, v => [(k, v)]
  | p :: rest, k, v => if p.1 = k then (k, v) :: rest else p :: pendingSet rest k v

/-- Map.delete on the pending map: drop the entry with the given key. -/
def pendingDelete : List (String × Nat) → String → List (String × Nat)
  | [], _ => []
  | p :: rest, k => if p.1 = k then pendingDelete rest k else p :: pendingDelete rest k

/-- Tokens of all promises currently registered in the pending map. -/
def pendingTokens (m : List (String × Nat)) : List Nat :=
  m.map Prod.snd

/-- Translation of ExecutionService.handleWorkerError: every pending request
is rejected with a worker-error message, the pending map is cleared and
isInitialized is set to false.  The worker field and the memoized init
promise are left untouched. -/
def handleWorkerError (s : OrchState) (errMessage : String) : OrchState × List CallerEvent :=
  ({ s with pending := [], initFlag := false },
   s.pending.map (fun p => .rejected p.2 ("Worker error: " ++ errMessage)))

/-- Translation of ExecutionService.initialize together with the success
path of _initialize.  First guard: already initialized with a live worker —
return at once.  Second guard: a memoized init promise exists — return it
without touching anything (even when it is stale).  Otherwise construct a
fresh Worker (next generation), send INIT and set the flags.  The Bool
reports whether a fresh Worker was constructed and INITed. -/
def initCall (s : OrchState) : OrchState × Bool :=
  if s.initFlag && s.worker.isSome then
    (s, false)
  else if s.initMemo then
    (s, false)
  else
    ({ s with
        worker := some s.nextGen
        nextGen := s.nextGen + 1
        initFlag := true
        initMemo := true },
     true)

/-- Translation of ExecutionService.execute followed by the EXECUTE branch
of sendRequest: when not initialized or with no worker, await initialize
first; then, with no worker, reject at once (Worker not initialized);
otherwise store the caller resolvers in the pending map keyed by cellId
(Map.set, overwriting any entry already there) and post the EXECUTE message.
The Bool of the return reports whether a fresh Worker was created by the
auto-initialization; the Option carries the generation of the worker the
message was posted to and the token of the registered caller promise. -/
def executeCall (s : OrchState) (cellId : String) : OrchState × Bool × Option (Nat × Nat) :=
  let (s1, fresh) :=
    if !s.initFlag || s.worker.isNone then initCall s else (s, false)
  match s1.worker with
  | none => (s1, fresh, none)
  | some g =>
      ({ s1 with
          pending := pendingSet s1.pending cellId s1.nextToken
          nextToken := s1.nextToken + 1 },
       fresh, some (g, s1.nextToken))

/-- Translation of ExecutionService.destroy: when a worker exists, send
DESTROY (errors ignored), terminate it and null the field; on both paths
isInitialized and initPromise are cleared and the pending map is emptied
without settling any entry. -/
def destroyCall (s : OrchState) : OrchState :=
  if s.worker.isSome then
    { s with worker := none, initFlag := false, initMemo := false, pending := [] }
  else
    { s with initFlag := false, initMemo := false, pending := [] }

/-- Translation of ExecutionService.handleWorkerMessage: EXECUTE_SUCCESS and
EXECUTE_ERROR look up the pending entry for the carried cellId; a match is
deleted and resolved (or rejected with the carried error), no match is
dropped silently; every other response type is ignored here. -/
def handleWorkerMessage (s : OrchState) (resp : WorkerResponse) : OrchState × List CallerEvent :=
  match resp with
  | .executeSuccess cellId result =>
      match pendingLookup s.pending cellId with
      | some tok =>
          ({ s with pending := pendingDelete s.pending cellId }, [.resolved tok result])
      | none => (s, [])
  | .executeError cellId msg =>
      match pendingLookup s.pending cellId with
      | some tok =>
          ({ s with pending := pendingDelete s.pending cellId }, [.rejected tok msg])
      | none => (s, [])
  | _ => (s, [])

/-- Routing of a sequence of worker responses through handleWorkerMessage in
arrival order, collecting every settlement event produced. -/
def routeAll (s : OrchState) : List WorkerResponse → OrchState × List CallerEvent
  | [] => (s, [])
  | resp :: rest =>
      let first := handleWorkerMessage s resp
      let next := routeAll first.1 rest
      (next.1, first.2 ++ next.2)

/-- Console state holding the four ambient functions, as captured by the
JSExecutor constructor into this.originalConsole. -/
def originalsConsole : ConsoleState :=
  { log := .original .log
    error := .original .error
    warn := .original .warn
    info := .original .info }

/-- Evaluation oracle of the code "var y = 1": no console call, no throw, no
context writes, and at the end of the user code the single new top-level
binding y is defined in scope with value 1. -/
def newBindingRun : EvalRun :=
  { events := []
    outcome := none
    finalScope := fun n => if n = "y" then some (.num "1") else none
    ctxWrites := []
    ret := none }

/-- Evaluation oracle of a run that logs one line and then throws an Error. -/
def logThrowRun : EvalRun :=
  { events := [(.log, "before the failure")]
    outcome := some (.errObj "boom" none "Error")
    finalScope := fun _ => none
    ctxWrites := []
    ret := none }

/-- Evaluation oracle of a silent successful run. -/
def quietOkRun : EvalRun :=
  { events := []
    outcome := none
    finalScope := fun _ => none
    ctxWrites := []
    ret := none }

/-- Evaluation oracle of a silent run that throws a non-Error value. -/
def quietThrowRun : EvalRun :=
  { events := []
    outcome := some (.other "oops")
    finalScope := fun _ => none
    ctxWrites := []
    ret := none }

/-- Evaluation oracle of a successful run that warns once. -/
def warnOkRun : EvalRun :=
  { events := [(.warn, "careful")]
    outcome := none
    finalScope := fun _ => none
    ctxWrites := []
    ret := none }

/-- Context holding one circular object under key a: JSON.stringify on it
throws, so re-materialization must degrade it to the empty placeholder. -/
def circularCtx : Ctx :=
  Ctx.empty.insert "a" (.obj none)

/-- Thenable that logs one line and resolves. -/
def resolvedThenable : ThenableData :=
  { events := [(.log, "inside the promise")], rejection := none }

/-- Thenable that logs one line and rejects with an Error. -/
def rejectedThenable : ThenableData :=
  { events := [(.log, "inside before reject")], rejection := some (.errObj "rejected" none "Error") }

/-- Isolated run returning the resolved thenable. -/
def isolatedResolvedRun : IsolatedRun :=
  { syncEvents := [(.log, "sync line")]
    syncOutcome := none
    ret := some resolvedThenable
    turnEvents := [(.info, "turn line")] }

/-- Isolated run returning the rejected thenable. -/
def isolatedRejectedRun : IsolatedRun :=
  { syncEvents := [(.log, "sync line")]
    syncOutcome := none
    ret := some rejectedThenable
    turnEvents := [] }

/-- Isolated run that throws synchronously. -/
def isolatedThrowRun : IsolatedRun :=
  { syncEvents := [(.error, "bad")]
    syncOutcome := some (.errObj "sync boom" (some "trace") "TypeError")
    ret := none
    turnEvents := [] }

/-- Isolated run with no thenable and no console call. -/
def isolatedQuietRun : IsolatedRun :=
  { syncEvents := []
    syncOutcome := none
    ret := none
    turnEvents := [] }

/-- Orchestrator state of a running service with one pending execution for
cell1 (token 7): live worker of generation 0, initialized, init promise
memoized. -/
def faultScenarioState : OrchState :=
  { worker := some 0
    nextGen := 1
    pending := [("cell1", 7)]
    nextToken := 8
    initFlag := true
    initMemo := true }

/-- Orchestrator state of an initialized idle service. -/
def idleOrch : OrchState :=
  { worker := some 0
    nextGen := 1
    pending := []
    nextToken := 0
    initFlag := true
    initMemo := true }

/-- Worker host state before any INIT was received. -/
def uninitWorker : WorkerState :=
  { executor := none, initFlag := false }

/-- Lookup after a property write. -/
theorem Ctx.val_insert (m : Ctx) (k : String) (v : JSValue) (j : String) :
    (m.insert k v).val j = if j = k then some v else m.val j := rfl

/-- Key enumeration after a property write. -/
theorem Ctx.keys_insert (m : Ctx) (k : String) (v : JSValue) :
    (m.insert k v).keys = if m.keys.contains k then m.keys else m.keys ++ [k] := rfl

/-- Conditional write fold over an empty name list. -/
theorem ctxFoldF_nil (f : String → Option JSValue) (init : Ctx) :
    ctxFoldF f [] init = init := rfl

/-- Unfolding of the conditional write fold over a cons. -/
theorem ctxFoldF_cons (f : String → Option JSValue) (j : String) (l : List String) (init : Ctx) :
    ctxFoldF f (j :: l) init =
      ctxFoldF f l
        (match f j with
         | some v => init.insert j v
         | none => init) := rfl

/-- Preservation: when f agrees with the stored value at k, the fold keeps
the value of k. -/
theorem ctxFoldF_val_pres {f : String → Option JSValue} {k : String} {v : JSValue}
    (hf : f k = some v) :
    ∀ (l : List String) (init : Ctx), init.val k = some v → (ctxFoldF f l init).val k = some v := by
  intro l
  induction l with
  | nil =>
      intro init h
      simpa [ctxFoldF_nil] using h
  | cons j rest ih =>
      intro init h
      rw [ctxFoldF_cons]
      apply ih
      cases hj : f j with
      | none => simpa using h
      | some w =>
          rw [Ctx.val_insert]
          by_cases hk : k = j
          · subst hk
            rw [hf] at hj
            simp at hj
            simp [hj]
          · simp [hk, h]

/-- Establishment: when k occurs in the name list and f yields a value at k,
the fold stores that value at k whatever the initial context held. -/
theorem ctxFoldF_val_of_mem {f : String → Option JSValue} {k : String} {v : JSValue}
    (hf : f k = some v) :
    ∀ (l : List String), k ∈ l → ∀ init : Ctx, (ctxFoldF f l init).val k = some v := by
  intro l
  induction l with
  | nil =>
      intro h
      cases h
  | cons j rest ih =>
      intro hmem init
      rw [ctxFoldF_cons]
      rcases List.mem_cons.mp hmem with hk | hk
      · subst hk
        rw [hf]
        apply ctxFoldF_val_pres hf
        simp [Ctx.val_insert]
      · exact ih hk _

/-- Frame: names outside the name list are untouched by the fold. -/
theorem ctxFoldF_val_of_not_mem {f : String → Option JSValue} {k : String} :
    ∀ (l : List String), k ∉ l → ∀ init : Ctx, (ctxFoldF f l init).val k = init.val k := by
  intro l
  induction l with
  | nil =>
      intro _ init
      rfl
  | cons j rest ih =>
      intro hmem init
      have hkj : k ≠ j := fun h => hmem (h ▸ List.mem_cons_self j rest)
      have hkr : k ∉ rest := fun h => hmem (List.mem_cons_of_mem j h)
      rw [ctxFoldF_cons, ih hkr]
      cases hj : f j with
      | none => rfl
      | some w => simp [Ctx.val_insert, hkj]

/-- Keys after the fold come from the initial context or from the name
list. -/
theorem ctxFoldF_keys_mem {a : String} (f : String → Option JSValue) :
    ∀ (l : List String) (init : Ctx),
      a ∈ (ctxFoldF f l init).keys → a ∈ init.keys ∨ a ∈ l := by
  intro l
  induction l with
  | nil =>
      intro init h
      exact Or.inl h
  | cons j rest ih =>
      intro init h
      rw [ctxFoldF_cons] at h
      rcases ih _ h with h1 | h1
      · cases hj : f j with
        | none =>
            rw [hj] at h1
            exact Or.inl h1
        | some w =>
            rw [hj] at h1
            rw [Ctx.keys_insert] at h1
            by_cases hc : init.keys.contains j
            · rw [if_pos hc] at h1
              exact Or.inl h1
            · rw [if_neg hc] at h1
              rcases List.mem_append.mp h1 with h2 | h2
              · exact Or.inl h2
              · simp at h2
                exact Or.inr (h2 ▸ List.mem_cons_self j rest)
      · exact Or.inr (List.mem_cons_of_mem j h1)

/-- Map.set stores the given value under the given key. -/
theorem pendingLookup_pendingSet_self (m : List (String × Nat)) (k : String) (v : Nat) :
    pendingLookup (pendingSet m k v) k = some v := by
  induction m with
  | nil => simp [pendingSet, pendingLookup]
  | cons p rest ih =>
      by_cases h : p.1 = k
      · simp [pendingSet, h, pendingLookup]
      · simp [pendingSet, h, pendingLookup, ih]

/-- Two consecutive Map.set calls with the same key collapse to the second
one. -/
theorem pendingSet_pendingSet (m : List (String × Nat)) (k : String) (v1 v2 : Nat) :
    pendingSet (pendingSet m k v1) k v2 = pendingSet m k v2 := by
  induction m with
  | nil => simp [pendingSet]
  | cons p rest ih =>
      by_cases h : p.1 = k
      · simp [pendingSet, h]
      · simp [pendingSet, h, ih]

/-- Tokens after Map.set come from the new value or the old map. -/
theorem mem_pendingTokens_pendingSet {t : Nat} (m : List (String × Nat)) (k : String) (v : Nat) :
    t ∈ pendingTokens (pendingSet m k v) → t = v ∨ t ∈ pendingTokens m := by
  induction m with
  | nil =>
      intro h
      simp [pendingSet, pendingTokens] at h
      exact Or.inl h
  | cons p rest ih =>
      intro h
      by_cases hp : p.1 = k
      · simp only [pendingSet, if_pos hp, pendingTokens, List.map_cons, List.mem_cons] at h
        rcases h with h | h
        · exact Or.inl h
        · exact Or.inr (by simp [pendingTokens]; right; simpa [pendingTokens] using h)
      · simp only [pendingSet, if_neg hp, pendingTokens, List.map_cons, List.mem_cons] at h
        rcases h with h | h
        · exact Or.inr (by simp [pendingTokens, h])
        · rcases ih (by simpa [pendingTokens] using h) with h2 | h2
          · exact Or.inl h2
          · exact Or.inr (by simp [pendingTokens]; right; simpa [pendingTokens] using h2)

/-- A successful Map.get returns a token stored in the map. -/
theorem pendingLookup_mem_tokens {t : Nat} {k : String} :
    ∀ m : List (String × Nat), pendingLookup m k = some t → t ∈ pendingTokens m := by
  intro m
  induction m with
  | nil =>
      intro h
      cases h
  | cons p rest ih =>
      intro h
      by_cases hp : p.1 = k
      · rw [pendingLookup, if_pos hp] at h
        simp [pendingTokens]
        left
        exact (Option.some.injEq _ _ ▸ h).symm
      · rw [pendingLookup, if_neg hp] at h
        simp [pendingTokens]
        right
        simpa [pendingTokens] using ih h

/-- Tokens surviving Map.delete were stored before. -/
theorem mem_tokens_pendingDelete {t : Nat} {k : String} :
    ∀ m : List (String × Nat), t ∈ pendingTokens (pendingDelete m k) → t ∈ pendingTokens m := by
  intro m
  induction m with
  | nil =>
      intro h
      exact h
  | cons p rest ih =>
      intro h
      by_cases hp : p.1 = k
      · rw [pendingDelete, if_pos hp] at h
        simp [pendingTokens]
        right
        simpa [pendingTokens] using ih h
      · rw [pendingDelete, if_neg hp] at h
        simp only [pendingTokens, List.map_cons, List.mem_cons] at h
        rcases h with h | h
        · simp [pendingTokens, h]
        · simp [pendingTokens]
          right
          simpa [pendingTokens] using ih (by simpa [pendingTokens] using h)

/-- Response routing only shrinks the pending map and only settles tokens
that were registered in it. -/
theorem handleWorkerMessage_tokens (s : OrchState) (resp : WorkerResponse) :
    (∀ t, t ∈ pendingTokens (handleWorkerMessage s resp).1.pending → t ∈ pendingTokens s.pending) ∧
    (∀ ev, ev ∈ (handleWorkerMessage s resp).2 → eventToken ev ∈ pendingTokens s.pending) := by
  cases resp with
  | executeSuccess cellId result =>
      cases hl : pendingLookup s.pending cellId with
      | none =>
          constructor
          · intro t ht
            simpa [handleWorkerMessage, hl] using ht
          · intro ev hev
            simp [handleWorkerMessage, hl] at hev
      | some tok =>
          constructor
          · intro t ht
            simp only [handleWorkerMessage, hl] at ht
            exact mem_tokens_pendingDelete _ ht
          · intro ev hev
            simp only [handleWorkerMessage, hl, List.mem_singleton] at hev
            subst hev
            exact pendingLookup_mem_tokens _ hl
  | executeError cellId msg =>
      cases hl : pendingLookup s.pending cellId with
      | none =>
          constructor
          · intro t ht
            simpa [handleWorkerMessage, hl] using ht
          · intro ev hev
            simp [handleWorkerMessage, hl] at hev
      | some tok =>
          constructor
          · intro t ht
            simp only [handleWorkerMessage, hl] at ht
            exact mem_tokens_pendingDelete _ ht
          · intro ev hev
            simp only [handleWorkerMessage, hl, List.mem_singleton] at hev
            subst hev
            exact pendingLookup_mem_tokens _ hl
  | initSuccess =>
      exact ⟨fun t ht => ht, fun ev hev => by simp [handleWorkerMessage] at hev⟩
  | initError e =>
      exact ⟨fun t ht => ht, fun ev hev => by simp [handleWorkerMessage] at hev⟩
  | resetSuccess =>
      exact ⟨fun t ht => ht, fun ev hev => by simp [handleWorkerMessage] at hev⟩
  | destroySuccess =>
      exact ⟨fun t ht => ht, fun ev hev => by simp [handleWorkerMessage] at hev⟩

/-- Every settlement event produced while routing any sequence of worker
responses carries a token that was registered in the pending map at the
start. -/
theorem routeAll_tokens :
    ∀ (resps : List WorkerResponse) (s : OrchState),
      (∀ t, t ∈ pendingTokens (routeAll s resps).1.pending → t ∈ pendingTokens s.pending) ∧
      (∀ ev, ev ∈ (routeAll s resps).2 → eventToken ev ∈ pendingTokens s.pending) := by
  intro resps
  induction resps with
  | nil =>
      intro s
      exact ⟨fun t ht => ht, fun ev hev => by simp [routeAll] at hev⟩
  | cons resp rest ih =>
      intro s
      have h1 := handleWorkerMessage_tokens s resp
      have h2 := ih (handleWorkerMessage s resp).1
      constructor
      · intro t ht
        simp only [routeAll] at ht
        exact h1.1 t (h2.1 t ht)
      · intro ev hev
        simp only [routeAll, List.mem_append] at hev
        rcases hev with h | h
        · exact h1.2 ev h
        · exact h1.1 _ (h2.2 ev h)

/-- C1: every execute call returns an ExecutionResult and never raises past
the execute boundary — an exception thrown during evaluation (or while
re-materializing the context, which happens inside the same try) is caught
and converted into the error field of the result, and the console output
captured before the failure is still returned in the output field; in both
the stateful and the isolated variant a throw-free evaluation yields a
success result with no error. -/
theorem C1_execute_converts_exceptions (orig cur : ConsoleState) (ctx : Ctx)
    (r : EvalRun) (ir : IsolatedRun) :
    (∀ e, r.outcome = some e →
      (statefulExecute orig cur ctx r).1 =
        { success := false
          output := getCombinedOutput (bufferOf r.events)
          error := some (errorInfoOf e) }) ∧
    (r.outcome = none →
      (statefulExecute orig cur ctx r).1.success = true ∧
      (statefulExecute orig cur ctx r).1.error = none) ∧
    (∀ e, ir.syncOutcome = some e →
      (isolatedExecute orig cur ir).1 =
        { success := false
          output := getCombinedOutput (bufferOf ir.syncEvents)
          error := some (errorInfoOf e) }) := by
  refine ⟨?_, ?_, ?_⟩
  · intro e he
    simp [statefulExecute, he]
  · intro he
    simp [statefulExecute, he]
  · intro e he
    simp [isolatedExecute, he]

/-- Witness for C1 at a concrete input: a run that logs one line and then
throws an Error produces a failure result that carries both the error and
the line captured before the failure. -/
theorem C1_execute_converts_exceptions_witness :
    (statefulExecute originalsConsole originalsConsole Ctx.empty logThrowRun).1 =
      { success := false
        output := some { type := .stdout, data := "before the failure" }
        error := some { message := "boom", stack := none, name := "Error" } } := by
  have h := C1_execute_converts_exceptions originalsConsole originalsConsole Ctx.empty
    logThrowRun isolatedThrowRun
  rw [h.1 (.errObj "boom" none "Error") rfl]
  rfl

/-- C2 as stated is false on the code: the generated sync trailer probes
only the previously known context keys, so a new top-level binding the code
introduced is never copied into the persisted context.  Concretely, a run of
the code "var y = 1" on an empty context leaves y still defined in the
evaluated scope, the execute call succeeds, and yet the persisted context
afterwards is still empty. -/
theorem C2_new_binding_not_persisted :
    newBindingRun.finalScope "y" = some (.num "1") ∧
    (statefulExecute originalsConsole originalsConsole Ctx.empty newBindingRun).1.success = true ∧
    (statefulExecute originalsConsole originalsConsole Ctx.empty newBindingRun).2.1.val "y" = none ∧
    (statefulExecute originalsConsole originalsConsole Ctx.empty newBindingRun).2.1.keys = [] := by
  refine ⟨rfl, rfl, rfl, rfl⟩

/-- C2 amended: after every successful execute, for every previously known
variable name the executor probes whether the name is still defined in the
evaluated scope and, if so, copies its current value back into the persisted
context; new top-level bindings are not probed — with no direct writes to
the context parameter object, a name unknown before the call is still absent
from the persisted context after it. -/
theorem C2_context_sync_amended (orig cur : ConsoleState) (ctx : Ctx) (r : EvalRun)
    (hok : r.outcome = none) :
    (∀ k v, k ∈ ctx.keys → r.finalScope k = some v →
      (statefulExecute orig cur ctx r).2.1.val k = some v) ∧
    (∀ n, n ∉ ctx.keys → ctx.val n = none → r.ctxWrites = [] →
      (statefulExecute orig cur ctx r).2.1.val n = none) := by
  have hctx : (statefulExecute orig cur ctx r).2.1 =
      syncContextBack ctx ctx.keys
        (ctxAfterGeneratedSync ctx.keys r.finalScope (applyCtxWrites r.ctxWrites ctx)) := by
    simp [statefulExecute, hok]
  constructor
  · intro k v hk hscope
    rw [hctx]
    set ec := ctxAfterGeneratedSync ctx.keys r.finalScope (applyCtxWrites r.ctxWrites ctx) with hec
    have hec_val : ec.val k = some v := ctxFoldF_val_of_mem hscope ctx.keys hk _
    show (ctxFoldF ec.val ec.keys (ctxFoldF ec.val ctx.keys ctx)).val k = some v
    apply ctxFoldF_val_pres hec_val
    exact ctxFoldF_val_of_mem hec_val ctx.keys hk ctx
  · intro n hn hval hw
    rw [hctx, hw]
    set ec := ctxAfterGeneratedSync ctx.keys r.finalScope (applyCtxWrites [] ctx) with hec
    have hecdef : ec = ctxFoldF r.finalScope ctx.keys ctx := rfl
    have hec_val : ec.val n = none := by
      rw [hecdef, ctxFoldF_val_of_not_mem ctx.keys hn ctx]
      exact hval
    have hec_keys : n ∉ ec.keys := by
      intro hmem
      rw [hecdef] at hmem
      rcases ctxFoldF_keys_mem r.finalScope ctx.keys ctx hmem with h | h
      · exact hn h
      · exact hn h
    show (ctxFoldF ec.val ec.keys (ctxFoldF ec.val ctx.keys ctx)).val n = none
    rw [ctxFoldF_val_of_not_mem ec.keys hec_keys, ctxFoldF_val_of_not_mem ctx.keys hn]
    exact hval

/-- Witness for the amended C2 at a concrete input: with context x = 1 and a
run in which x is still defined (now 2) in the evaluated scope, x is updated
to 2 in the persisted context, while the unknown name z stays absent. -/
theorem C2_context_sync_amended_witness :
    ((Ctx.empty.insert "x" (.num "1")).keys = ["x"]) ∧
    (statefulExecute originalsConsole originalsConsole (Ctx.empty.insert "x" (.num "1"))
      { events := []
        outcome := none
        finalScope := fun n => if n = "x" then some (.num "2") else none
        ctxWrites := []
        ret := none }).2.1.val "x" = some (.num "2") ∧
    (statefulExecute originalsConsole originalsConsole (Ctx.empty.insert "x" (.num "1"))
      { events := []
        outcome := none
        finalScope := fun n => if n = "x" then some (.num "2") else none
        ctxWrites := []
        ret := none }).2.1.val "z" = none := by
  have h := C2_context_sync_amended originalsConsole originalsConsole
    (Ctx.empty.insert "x" (.num "1"))
    { events := []
      outcome := none
      finalScope := fun n => if n = "x" then some (.num "2") else none
      ctxWrites := []
      ret := none }
    rfl
  refine ⟨rfl, ?_, ?_⟩
  · exact h.1 "x" (.num "2") (by decide) (by decide)
  · exact h.2 "z" (by decide) (by decide) rfl

/-- C3: the code contradicts the claim at the failing input.  After a worker
fault the orchestrator does reject the pending execute with a host-fault
message, clears the pending map and lowers isInitialized — but the next
public call does not re-initialize from scratch: initialize returns the
stale memoized init promise without constructing a fresh worker, and the
following execute posts to the old worker generation. -/
theorem C3_fault_leaves_stale_init :
    (handleWorkerError faultScenarioState "boom").2 =
      [.rejected 7 "Worker error: boom"] ∧
    (handleWorkerError faultScenarioState "boom").1.pending = [] ∧
    (handleWorkerError faultScenarioState "boom").1.initFlag = false ∧
    (initCall (handleWorkerError faultScenarioState "boom").1).2 = false ∧
    (initCall (handleWorkerError faultScenarioState "boom").1).1.worker = some 0 ∧
    (initCall (handleWorkerError faultScenarioState "boom").1).1.nextGen = 1 ∧
    (executeCall (handleWorkerError faultScenarioState "boom").1 "cell2").2.1 = false ∧
    (executeCall (handleWorkerError faultScenarioState "boom").1 "cell2").2.2 = some (0, 8) := by
  refine ⟨rfl, rfl, rfl, rfl, rfl, rfl, rfl, rfl⟩

/-- C4: the result invariant holds for both execute variants — success
implies no error record, failure implies an error record — and the output
field can be present or absent in either case: present on a failure that
logged first, absent on a silent failure, present on a success that logged,
absent on a silent success. -/
theorem C4_result_invariant (orig cur : ConsoleState) (ctx : Ctx) (r : EvalRun)
    (ir : IsolatedRun) :
    ((statefulExecute orig cur ctx r).1.success = true →
      (statefulExecute orig cur ctx r).1.error = none) ∧
    ((statefulExecute orig cur ctx r).1.success = false →
      ((statefulExecute orig cur ctx r).1.error).isSome = true) ∧
    ((isolatedExecute orig cur ir).1.success = true →
      (isolatedExecute orig cur ir).1.error = none) ∧
    ((isolatedExecute orig cur ir).1.success = false →
      ((isolatedExecute orig cur ir).1.error).isSome = true) ∧
    ((statefulExecute orig cur ctx logThrowRun).1.output).isSome = true ∧
    (statefulExecute orig cur ctx quietThrowRun).1.output = none ∧
    ((statefulExecute orig cur ctx warnOkRun).1.output).isSome = true ∧
    (statefulExecute orig cur ctx quietOkRun).1.output = none := by
  refine ⟨?_, ?_, ?_, ?_, rfl, rfl, rfl, rfl⟩
  · cases h : r.outcome <;> simp [statefulExecute, h]
  · cases h : r.outcome <;> simp [statefulExecute, h]
  · cases h1 : ir.syncOutcome with
    | some e => simp [isolatedExecute, h1]
    | none =>
        cases h2 : ir.ret with
        | none => simp [isolatedExecute, h1, h2]
        | some t =>
            cases h3 : t.rejection <;> simp [isolatedExecute, h1, h2, h3]
  · cases h1 : ir.syncOutcome with
    | some e => simp [isolatedExecute, h1]
    | none =>
        cases h2 : ir.ret with
        | none => simp [isolatedExecute, h1, h2]
        | some t =>
            cases h3 : t.rejection <;> simp [isolatedExecute, h1, h2, h3]

/-- Witness for C4 at a concrete input: a successful silent run has no
error record, a throwing run has one. -/
theorem C4_result_invariant_witness :
    (statefulExecute originalsConsole originalsConsole Ctx.empty quietOkRun).1.error = none ∧
    ((statefulExecute originalsConsole originalsConsole Ctx.empty quietThrowRun).1.error).isSome
      = true := by
  have h1 := C4_result_invariant originalsConsole originalsConsole Ctx.empty quietOkRun
    isolatedQuietRun
  have h2 := C4_result_invariant originalsConsole originalsConsole Ctx.empty quietThrowRun
    isolatedQuietRun
  exact ⟨h1.1 rfl, h2.2.1 rfl⟩

/-- C5: in both variants and on both the success path and the throwing path,
the four intercepted console channels are restored to the functions stored
in originalConsole when execute returns, so a log statement issued after
execute reaches the ambient console unmodified. -/
theorem C5_console_restored (orig cur : ConsoleState) (ctx : Ctx) (r : EvalRun)
    (ir : IsolatedRun) :
    (statefulExecute orig cur ctx r).2.2 = orig ∧
    (isolatedExecute orig cur ir).2 = orig := by
  constructor
  · cases h : r.outcome <;> simp [statefulExecute, h, restoreConsole]
  · cases h1 : ir.syncOutcome with
    | some e => simp [isolatedExecute, h1, restoreConsole]
    | none =>
        cases h2 : ir.ret with
        | none => simp [isolatedExecute, h1, h2, restoreConsole]
        | some t =>
            cases h3 : t.rejection <;> simp [isolatedExecute, h1, h2, h3, restoreConsole]

/-- C6: for every execute call of the stateful variant, whatever the
outcome: with no console call during evaluation the output is undefined;
otherwise the output data is the intercepted lines in call order joined with
newline, and the stream is stderr exactly when at least one line came from
the warn or error channel and stdout otherwise. -/
theorem C6_output_combination (orig cur : ConsoleState) (ctx : Ctx) (r : EvalRun) :
    (r.events = [] → (statefulExecute orig cur ctx r).1.output = none) ∧
    (r.events ≠ [] →
      (statefulExecute orig cur ctx r).1.output =
        some
          { type :=
              if r.events.any (fun e => decide (e.1 = Chan.warn ∨ e.1 = Chan.error)) then
                .stderr
              else .stdout
            data := String.intercalate "\n" (r.events.map Prod.snd) }) := by
  have hout : (statefulExecute orig cur ctx r).1.output =
      getCombinedOutput (bufferOf r.events) := by
    cases h : r.outcome <;> simp [statefulExecute, h]
  have hdata : (bufferOf r.events).map Prod.snd = r.events.map Prod.snd := by
    simp [bufferOf, List.map_map]
  have hstream : (bufferOf r.events).any (fun item => isStderr item.1) =
      r.events.any (fun e => decide (e.1 = Chan.warn ∨ e.1 = Chan.error)) := by
    induction r.events with
    | nil => rfl
    | cons e rest ih =>
        simp only [bufferOf, List.map_cons, List.any_cons] at ih ⊢
        rw [ih]
        cases e.1 <;> rfl
  constructor
  · intro h
    rw [hout, h]
    rfl
  · intro h
    rw [hout]
    have hne : (bufferOf r.events).isEmpty = false := by
      cases hev : r.events with
      | nil => exact absurd hev h
      | cons a l => simp [bufferOf, hev]
    rw [getCombinedOutput, hne]
    simp only [Bool.false_eq_true, if_false, hdata, hstream]

/-- Witness for C6 at a concrete input: a run that warns once yields a
combined stderr record with that single line. -/
theorem C6_output_combination_witness :
    (statefulExecute originalsConsole originalsConsole Ctx.empty warnOkRun).1.output =
      some { type := .stderr, data := "careful" } := by
  have h := C6_output_combination originalsConsole originalsConsole Ctx.empty warnOkRun
  rw [h.2 (by decide)]
  rfl

/-- C7: a destroy followed by an execute auto-reinitializes — the memoized
init promise and the flags were cleared, so a fresh worker is constructed
and INITed and the request is posted to it with a registered pending
completion; at the host boundary an EXECUTE received while no initialized
executor exists produces an EXECUTE_ERROR response carrying the
not-initialized message; and routing an EXECUTE_ERROR for the registered
cellId settles (rejects) the pending caller promise rather than leaving it
hanging. -/
theorem C7_destroy_then_execute (s : OrchState) (cellId : String)
    (execResult : ExecutionResult) (w : WorkerState)
    (hw : (w.executor.isNone || !w.initFlag) = true) :
    (executeCall (destroyCall s) cellId).2.1 = true ∧
    (executeCall (destroyCall s) cellId).2.2 = some (s.nextGen, s.nextToken) ∧
    (executeCall (destroyCall s) cellId).1.pending = [(cellId, s.nextToken)] ∧
    handleExecute w cellId execResult = .executeError cellId notInitMessage ∧
    (handleWorkerMessage (executeCall (destroyCall s) cellId).1
      (.executeError cellId notInitMessage)).2 =
      [.rejected s.nextToken notInitMessage] ∧
    (handleWorkerMessage (executeCall (destroyCall s) cellId).1
      (.executeError cellId notInitMessage)).1.pending = [] := by
  have hd : destroyCall s =
      { s with worker := none, initFlag := false, initMemo := false, pending := [] } := by
    rw [destroyCall]
    cases hw0 : s.worker <;> simp [hw0]
  refine ⟨?_, ?_, ?_, ?_, ?_, ?_⟩ <;>
    simp [hd, executeCall, initCall, handleExecute, hw, handleWorkerMessage, pendingSet,
      pendingLookup, pendingDelete]

/-- Witness for C7 at a concrete input: destroying the idle service and then
executing cell c constructs worker generation 1 and registers token 0, an
uninitialized host answers EXECUTE with the not-initialized error, and
routing that error rejects the registered promise. -/
theorem C7_destroy_then_execute_witness :
    (executeCall (destroyCall idleOrch) "c").2.1 = true ∧
    (executeCall (destroyCall idleOrch) "c").2.2 = some (1, 0) ∧
    handleExecute uninitWorker "c"
      { success := true, output := none, error := none } =
      .executeError "c" notInitMessage ∧
    (handleWorkerMessage (executeCall (destroyCall idleOrch) "c").1
      (.executeError "c" notInitMessage)).2 = [.rejected 0 notInitMessage] := by
  have h := C7_destroy_then_execute idleOrch "c"
    { success := true, output := none, error := none } uninitWorker rfl
  exact ⟨h.1, h.2.1, h.2.2.2.1, h.2.2.2.2.1⟩

/-- C8: issuing a second execute with the same cellId while the first is
pending overwrites the pending-completion record — afterwards the map holds
the second token under that cellId and the first token is registered
nowhere — and no sequence of subsequently routed worker responses ever
settles the first caller promise. -/
theorem C8_same_id_overwrite (s : OrchState) (g : Nat) (cellId : String)
    (hinit : s.initFlag = true) (hw : s.worker = some g)
    (htok : ∀ t ∈ pendingTokens s.pending, t < s.nextToken) :
    pendingLookup (executeCall (executeCall s cellId).1 cellId).1.pending cellId =
      some (s.nextToken + 1) ∧
    s.nextToken ∉ pendingTokens (executeCall (executeCall s cellId).1 cellId).1.pending ∧
    ∀ (resps : List WorkerResponse) (ev : CallerEvent),
      ev ∈ (routeAll (executeCall (executeCall s cellId).1 cellId).1 resps).2 →
      eventToken ev ≠ s.nextToken := by
  have hpend : (executeCall (executeCall s cellId).1 cellId).1.pending =
      pendingSet s.pending cellId (s.nextToken + 1) := by
    simp [executeCall, hinit, hw, pendingSet_pendingSet]
  have hnot : s.nextToken ∉ pendingTokens (pendingSet s.pending cellId (s.nextToken + 1)) := by
    intro hmem
    rcases mem_pendingTokens_pendingSet _ _ _ hmem with h | h
    · omega
    · exact absurd (htok _ h) (by omega)
  refine ⟨?_, ?_, ?_⟩
  · rw [hpend]
    exact pendingLookup_pendingSet_self _ _ _
  · rw [hpend]
    exact hnot
  · intro resps ev hev heq
    have h := (routeAll_tokens resps (executeCall (executeCall s cellId).1 cellId).1).2 ev hev
    rw [hpend] at h
    rw [heq] at h
    exact hnot h

/-- Witness for C8 at a concrete input: two executes for cell c on the idle
service leave token 1 registered under c and token 0 registered nowhere. -/
theorem C8_same_id_overwrite_witness :
    pendingLookup (executeCall (executeCall idleOrch "c").1 "c").1.pending "c" = some 1 ∧
    0 ∉ pendingTokens (executeCall (executeCall idleOrch "c").1 "c").1.pending := by
  have h := C8_same_id_overwrite idleOrch 0 "c" rfl rfl (by simp [idleOrch, pendingTokens])
  exact ⟨h.1, h.2.1⟩

/-- C9: a persisted context value that fails to serialize is re-materialized
as an empty placeholder — an empty object literal for objects, an empty
array literal for arrays, a throwing stub for unserializable functions — and
a throw-free execute over any such context still succeeds: serialization
failure never aborts the execution. -/
theorem C9_serialization_failure_degrades (k : String) (orig cur : ConsoleState)
    (ctx : Ctx) (r : EvalRun) (hok : r.outcome = none) :
    serializeValue k (.obj none) = "var " ++ k ++ " = \x7b\x7d;" ∧
    serializeValue k (.arr none) = "var " ++ k ++ " = [];" ∧
    serializeValue k (.func none) =
      "var " ++ k ++
        " = function() \x7b throw new Error(\"Function cannot be serialized\"); \x7d;" ∧
    (statefulExecute orig cur ctx r).1.success = true := by
  refine ⟨rfl, rfl, rfl, ?_⟩
  simp [statefulExecute, hok]

/-- Witness for C9 at a concrete input: over a context holding one circular
object, a silent run still succeeds. -/
theorem C9_serialization_failure_degrades_witness :
    serializeValue "a" (.obj none) = "var a = \x7b\x7d;" ∧
    (statefulExecute originalsConsole originalsConsole circularCtx quietOkRun).1.success
      = true := by
  have h := C9_serialization_failure_degrades "a" originalsConsole originalsConsole
    circularCtx quietOkRun rfl
  exact ⟨h.1, h.2.2.2⟩

/-- C10: the isolated variant awaits a returned thenable (and one further
macrotask turn) before building the result — console output produced while
the thenable settles is part of the captured output, and a rejection of the
thenable turns into a failure result — while the stateful variant performs
no such await: its entire result is unchanged by whatever thenable the
evaluated code returned. -/
theorem C10_thenable_await (orig cur : ConsoleState) (ctx : Ctx) (r : EvalRun)
    (ir : IsolatedRun) (t : ThenableData)
    (hsync : ir.syncOutcome = none) (hret : ir.ret = some t) :
    (t.rejection = none →
      (isolatedExecute orig cur ir).1 =
        { success := true
          output := getCombinedOutput (bufferOf (ir.syncEvents ++ t.events ++ ir.turnEvents))
          error := none }) ∧
    (∀ e, t.rejection = some e →
      (isolatedExecute orig cur ir).1 =
        { success := false
          output := getCombinedOutput (bufferOf (ir.syncEvents ++ t.events))
          error := some (errorInfoOf e) }) ∧
    statefulExecute orig cur ctx { r with ret := some t } =
      statefulExecute orig cur ctx { r with ret := none } := by
  refine ⟨?_, ?_, rfl⟩
  · intro h
    simp [isolatedExecute, hsync, hret, h]
  · intro e h
    simp [isolatedExecute, hsync, hret, h]

/-- Witness for C10 at concrete inputs: with a resolving thenable the sync
line, the line logged inside the promise and the macrotask-turn line are all
captured; with a rejecting thenable the result is a failure that still
carries the line logged inside the promise. -/
theorem C10_thenable_await_witness :
    (isolatedExecute originalsConsole originalsConsole isolatedResolvedRun).1 =
      { success := true
        output := some
          { type := .stdout, data := "sync line\ninside the promise\nturn line" }
        error := none } ∧
    (isolatedExecute originalsConsole originalsConsole isolatedRejectedRun).1 =
      { success := false
        output := some { type := .stdout, data := "sync line\ninside before reject" }
        error := some { message := "rejected", stack := none, name := "Error" } } := by
  constructor
  · have h := C10_thenable_await originalsConsole originalsConsole Ctx.empty quietOkRun
      isolatedResolvedRun resolvedThenable rfl rfl
    rw [h.1 rfl]
    rfl
  · have h := C10_thenable_await originalsConsole originalsConsole Ctx.empty quietOkRun
      isolatedRejectedRun rejectedThenable rfl rfl
    rw [h.2.1 (.errObj "rejected" none "Error") rfl]
    rfl

end Devbook
